import Mathlib

/-!
Verification of the station-scope closure and reconciliation engine of
`scripts/merge_rail_pathways.py` (steps 3 through 6 of the script).

Tables are modelled as an ordered column list together with a list of rows;
a row is an association list from column names to string values.  Reading a
cell defaults to the empty string, matching the script's
`pd.read_csv(..., dtype=str).fillna("")` convention under which a missing
value and an empty value are both the empty string.
-/

set_option autoImplicit false

namespace GtfsMerge

/-- A row of a GTFS table: column name / value pairs. -/
abbrev Row := List (String × String)

/-- Read a cell of a row by column name; absent columns read as `""`,
matching the script's `fillna("")` convention. -/
def rowGet (r : Row) (c : String) : String :=
  (List.lookup c r).getD ""

/-- A GTFS table: an ordered list of column names plus a list of rows. -/
structure Table where
  cols : List String
  rows : List Row
deriving DecidableEq

/-- `stop_id` field of a row. -/
def stopId (r : Row) : String := rowGet r "stop_id"

/-- `parent_station` field of a row. -/
def parentStation (r : Row) : String := rowGet r "parent_station"

/-- The set of `stop_id` values occurring in a stop list. -/
def stopIdSet (stops : List Row) : Finset String :=
  (stops.map stopId).toFinset

/-- One scan of the closure loop:
`children = set(stops_df.loc[stops_df["parent_station"].isin(in_scope), "stop_id"])`. -/
def closureStep (stops : List Row) (s : Finset String) : Finset String :=
  ((stops.filter (fun r => decide (parentStation r ∈ s))).map stopId).toFinset

/-- The fueled closure loop: each round computes `new = children - in_scope`,
halts when `new` is empty and otherwise adds `new` and repeats
(`while True: ... if not new: break; in_scope.update(new)`). -/
def closureIter (stops : List Row) : Nat → Finset String → Finset String
  | 0, s => s
  | n + 1, s =>
    let nw := closureStep stops s \ s
    if nw = ∅ then s else closureIter stops n (s ∪ nw)

/-- `in_scope` as computed by the script: the closure loop run with enough
fuel to reach its fixed point (each productive round adds at least one
`stop_id` of the table, so `stops.length + 1` rounds always suffice). -/
def resolveClosure (roots : Finset String) (stops : List Row) : Finset String :=
  closureIter stops (stops.length + 1) roots

-- ---------------------------------------------------------------------------
-- Scope extraction (steps 3 to 5 of the script)
-- ---------------------------------------------------------------------------

/-- `scoped_stops = stops_df[stops_df["stop_id"].isin(in_scope)]`. -/
def scopedStopsOf (src : Table) (scope : Finset String) : Table :=
  { cols := src.cols
    rows := src.rows.filter (fun r => decide (stopId r ∈ scope)) }

/-- `scoped_pathways = pathways_df[from_stop_id.isin(in_scope) & to_stop_id.isin(in_scope)]`. -/
def filterPathways (t : Table) (scope : Finset String) : Table :=
  { cols := t.cols
    rows := t.rows.filter (fun r =>
      decide (rowGet r "from_stop_id" ∈ scope) && decide (rowGet r "to_stop_id" ∈ scope)) }

/-- `scoped_level_ids = set(scoped_stops["level_id"].dropna().unique()) - \x7b""\x7d`. -/
def scopedLevelIds (scopedStops : Table) : Finset String :=
  ((scopedStops.rows.map (fun r => rowGet r "level_id")).filter (fun v => v != "")).toFinset

/-- `scoped_levels = levels_df[levels_df["level_id"].isin(scoped_level_ids)]`. -/
def filterLevels (t : Table) (scopedStops : Table) : Table :=
  { cols := t.cols
    rows := t.rows.filter (fun r => decide (rowGet r "level_id" ∈ scopedLevelIds scopedStops)) }

-- ---------------------------------------------------------------------------
-- Stops merge (step 6 of the script)
-- ---------------------------------------------------------------------------

/-- The pathway-related columns the script adds to the target when missing:
`for col in ["stop_timezone", "wheelchair_boarding", "level_id"]: ...`. -/
def pathwayColumns : List String := ["stop_timezone", "wheelchair_boarding", "level_id"]

/-- Target columns after appending whichever of the three pathway-related
columns were missing (each new column holds `""` for every row, which the
`rowGet` default already provides). -/
def colsWithPathwayColumns (target : Table) : List String :=
  target.cols ++ pathwayColumns.filter (fun c => !target.cols.contains c)

/-- `if "tpis_name" in columns: cols = [c for c in columns if c != "tpis_name"] + ["tpis_name"]`. -/
def colsTpisLast (cs : List String) : List String :=
  if cs.contains "tpis_name" then cs.filter (fun c => c != "tpis_name") ++ ["tpis_name"] else cs

/-- The target's column set at the moment `scoped_stops.reindex(columns=...)` runs. -/
def unionCols (target : Table) : List String :=
  colsTpisLast (colsWithPathwayColumns target)

/-- Build a row over the given columns from a per-column value function. -/
def mkRow (cols : List String) (f : String → String) : Row :=
  cols.map (fun c => (c, f c))

/-- `scoped_stops.reindex(columns=target_stops_df.columns, fill_value="")` applied
to one scoped row: columns of the target schema take the scoped value when the
scoped schema has that column and `""` otherwise; scoped-only columns are dropped. -/
def alignRow (target sc : Table) (r : Row) : Row :=
  mkRow (unionCols target) (fun c => if sc.cols.contains c then rowGet r c else "")

/-- All scoped rows aligned to the target schema (`scoped_stops_aligned`). -/
def alignedScoped (target sc : Table) : List Row :=
  sc.rows.map (alignRow target sc)

/-- The `stop_id` values of a table's rows, in row order. -/
def tableKeys (t : Table) : List String := t.rows.map stopId

/-- `target_stops_df.update(scoped_stops_aligned)` applied to one target row:
if some aligned scoped row carries the same `stop_id`, every column value of
that aligned row (all of which are non-NA strings after `fillna`/`reindex`)
overwrites the target's, so the row becomes the aligned scoped row; otherwise
the row passes through, padded to the post-union schema. -/
def updatedRow (target sc : Table) (r : Row) : Row :=
  match (alignedScoped target sc).find? (fun s => stopId s == stopId r) with
  | some s => s
  | none => mkRow (unionCols target) (fun c => rowGet r c)

/-- `new_stops = scoped_stops_aligned[~scoped_stops_aligned.index.isin(target.index)]`. -/
def appendedRows (target sc : Table) : List Row :=
  (alignedScoped target sc).filter (fun s => !(tableKeys target).contains (stopId s))

/-- Column order after `set_index("stop_id")` / `reset_index()`: the key column
comes back as the first column. -/
def finalCols (target : Table) : List String :=
  "stop_id" :: (unionCols target).filter (fun c => c != "stop_id")

/-- The whole stops merge of step 6: pad the schema, align the scoped rows,
overwrite matching target rows in place, then append the scoped rows whose
key is new (`pd.concat([target_stops_df, new_stops])`). -/
def mergeStops (target sc : Table) : Table :=
  { cols := finalCols target
    rows := target.rows.map (updatedRow target sc) ++ appendedRows target sc }

-- ---------------------------------------------------------------------------
-- Orchestration (steps 3 to 6 end to end)
-- ---------------------------------------------------------------------------

/-- Outcome of one merge run: the three tables the script writes back, plus
whether each secondary table was skipped (source file absent). -/
structure MergeResult where
  stops : Table
  pathways : Table
  pathwaysSkipped : Bool
  levels : Table
  levelsSkipped : Bool
deriving DecidableEq

/-- Write-or-skip for `pathways.txt` / `levels.txt`: a `none` scoped result
(source file absent) leaves the target file untouched and surfaces the skip
warning; a present scoped result fully replaces the target file. -/
def writeSecondary (sc : Option Table) (target : Table) : Table × Bool :=
  match sc with
  | none => (target, true)
  | some s => (s, false)

/-- Steps 3 to 6 of the script as one function from in-memory tables to
in-memory tables.  `srcPathways`/`srcLevels` are `none` when the corresponding
source file does not exist. -/
def runMerge (roots : List String) (srcStops : Table)
    (srcPathways srcLevels : Option Table)
    (tgtStops tgtPathways tgtLevels : Table) : MergeResult :=
  let scope := resolveClosure roots.toFinset srcStops.rows
  let scStops := scopedStopsOf srcStops scope
  let scPathways := Option.map (fun t => filterPathways t scope) srcPathways
  let scLevels := Option.map (fun t => filterLevels t scStops) srcLevels
  let p := writeSecondary scPathways tgtPathways
  let l := writeSecondary scLevels tgtLevels
  { stops := mergeStops tgtStops scStops
    pathways := p.1
    pathwaysSkipped := p.2
    levels := l.1
    levelsSkipped := l.2 }

-- ---------------------------------------------------------------------------
-- Concrete tables used as counterexamples and witnesses
-- ---------------------------------------------------------------------------

/-- A target stops table with a column `extra` that the scoped schema lacks. -/
def exTargetC1 : Table :=
  { cols := ["stop_id", "extra"], rows := [[("stop_id", "A"), ("extra", "x")]] }

/-- A scoped stops table whose schema is just the key column. -/
def exScopedC1 : Table :=
  { cols := ["stop_id"], rows := [[("stop_id", "A")]] }

/-- A minimal target stops table. -/
def exTargetC2 : Table :=
  { cols := ["stop_id"], rows := [[("stop_id", "A")]] }

/-- A scoped stops table carrying a column `platform_code` absent from the
target schema (and not one of the three pathway-related columns). -/
def exScopedC2 : Table :=
  { cols := ["stop_id", "platform_code"], rows := [[("stop_id", "B"), ("platform_code", "7")]] }

/-- Source stops for the dangling-pathway run: no row has `stop_id = "R"`. -/
def exSrcStopsC3 : Table :=
  { cols := ["stop_id", "parent_station", "level_id"]
    rows := [[("stop_id", "X"), ("parent_station", ""), ("level_id", "")]] }

/-- Source pathways for the dangling-pathway run: one pathway whose endpoints
are both the absent root `"R"`. -/
def exSrcPathwaysC3 : Table :=
  { cols := ["pathway_id", "from_stop_id", "to_stop_id"]
    rows := [[("pathway_id", "P1"), ("from_stop_id", "R"), ("to_stop_id", "R")]] }

/-- Target stops for the dangling-pathway run: no row has `stop_id = "R"`. -/
def exTgtStopsC3 : Table :=
  { cols := ["stop_id"], rows := [[("stop_id", "X")]] }

/-- An empty target pathways table. -/
def exTgtPathwaysC3 : Table :=
  { cols := ["pathway_id", "from_stop_id", "to_stop_id"], rows := [] }

/-- An empty target levels table. -/
def exTgtLevelsC3 : Table :=
  { cols := ["level_id"], rows := [] }

/-- The dangling-pathway run: roots `["R"]`, pathways source present,
levels source absent. -/
def exRunC3 : MergeResult :=
  runMerge ["R"] exSrcStopsC3 (some exSrcPathwaysC3) none
    exTgtStopsC3 exTgtPathwaysC3 exTgtLevelsC3

/-- A one-row stop list whose single stop names the absent root `"R"` as its
parent station. -/
def exStopsC8 : List Row := [[("stop_id", "A"), ("parent_station", "R")]]

/-- Target stops table for the preservation witnesses. -/
def exTargetC6 : Table :=
  { cols := ["stop_id", "stop_name"]
    rows := [[("stop_id", "T1"), ("stop_name", "Alpha")], [("stop_id", "T2"), ("stop_name", "Beta")]] }

/-- Scoped stops table for the preservation witnesses: updates `T2`, adds `S1`. -/
def exScopedC6 : Table :=
  { cols := ["stop_id", "stop_name", "level_id"]
    rows := [[("stop_id", "T2"), ("stop_name", "Gamma"), ("level_id", "L1")],
             [("stop_id", "S1"), ("stop_name", "New"), ("level_id", "")]] }

-- ---------------------------------------------------------------------------
-- Closure lemmas
-- ---------------------------------------------------------------------------

theorem closureStep_subset_stopIdSet (stops : List Row) (s : Finset String) :
    closureStep stops s ⊆ stopIdSet stops := by
  intro x hx
  simp only [closureStep, List.mem_toFinset, List.mem_map] at hx
  obtain ⟨r, hr, hrx⟩ := hx
  have hr' : r ∈ stops := List.mem_of_mem_filter hr
  simp only [stopIdSet, List.mem_toFinset, List.mem_map]
  exact ⟨r, hr', hrx⟩

theorem subset_closureIter (stops : List Row) (n : Nat) (s : Finset String) :
    s ⊆ closureIter stops n s := by
  induction n generalizing s with
  | zero => exact le_refl s
  | succ n ih =>
    simp only [closureIter]
    by_cases h : closureStep stops s \ s = ∅
    · simp [h]
    · simp only [h, if_neg, ite_false]
      exact (Finset.subset_union_left).trans (ih (s ∪ (closureStep stops s \ s)))

theorem closureIter_of_fixed (stops : List Row) (n : Nat) (s : Finset String)
    (h : closureStep stops s ⊆ s) : closureIter stops n s = s := by
  cases n with
  | zero => rfl
  | succ n =>
    have hempty : closureStep stops s \ s = ∅ := Finset.sdiff_eq_empty_iff_subset.mpr h
    simp [closureIter, hempty]

/-- With fuel exceeding the number of still-missing stop ids, the loop reaches
a fixed point of `closureStep`. -/
theorem closureIter_fixed_of_fuel (stops : List Row) :
    ∀ n s, (stopIdSet stops \ s).card < n →
      closureStep stops (closureIter stops n s) ⊆ closureIter stops n s := by
  intro n
  induction n with
  | zero => intro s h; omega
  | succ n ih =>
    intro s hcard
    simp only [closureIter]
    by_cases h : closureStep stops s \ s = ∅
    · simp only [h, ite_true]
      exact Finset.sdiff_eq_empty_iff_subset.mp h
    · simp only [h, ite_false]
      apply ih
      have hsub : closureStep stops s \ s ⊆ stopIdSet stops \ s := by
        exact Finset.sdiff_subset_sdiff (closureStep_subset_stopIdSet stops s) (le_refl s)
      have hne : (closureStep stops s \ s).Nonempty := Finset.nonempty_iff_ne_empty.mpr h
      have hlt : (stopIdSet stops \ (s ∪ (closureStep stops s \ s))).card
          < (stopIdSet stops \ s).card := by
        apply Finset.card_lt_card
        constructor
        · intro x hx
          simp only [Finset.mem_sdiff, Finset.mem_union, not_or] at hx ⊢
          exact ⟨hx.1, hx.2.1⟩
        · intro hsub2
          obtain ⟨x, hx⟩ := hne
          have hx' : x ∈ stopIdSet stops \ s := hsub hx
          have hx2 := hsub2 hx'
          rw [Finset.mem_sdiff, Finset.mem_union, not_or] at hx2
          exact hx2.2.2 hx
      omega

theorem card_sdiff_le_length (stops : List Row) (s : Finset String) :
    (stopIdSet stops \ s).card ≤ stops.length := by
  calc (stopIdSet stops \ s).card ≤ (stopIdSet stops).card :=
        Finset.card_le_card (Finset.sdiff_subset)
    _ ≤ (stops.map stopId).length := List.toFinset_card_le (stops.map stopId)
    _ = stops.length := List.length_map stops stopId

/-- The script's `in_scope` is a fixed point of the scan step. -/
theorem resolveClosure_fixed (roots : Finset String) (stops : List Row) :
    closureStep stops (resolveClosure roots stops) ⊆ resolveClosure roots stops := by
  apply closureIter_fixed_of_fuel
  have := card_sdiff_le_length stops roots
  omega

theorem subset_resolveClosure (roots : Finset String) (stops : List Row) :
    roots ⊆ resolveClosure roots stops :=
  subset_closureIter stops (stops.length + 1) roots


theorem closureIter_subset_union (stops : List Row) :
    ∀ n s, closureIter stops n s ⊆ s ∪ stopIdSet stops := by
  intro n
  induction n with
  | zero => intro s; exact Finset.subset_union_left
  | succ n ih =>
    intro s
    simp only [closureIter]
    by_cases h : closureStep stops s \ s = ∅
    · simp only [h, ite_true]
      exact Finset.subset_union_left
    · simp only [h, ite_false]
      refine (ih (s ∪ (closureStep stops s \ s))).trans ?_
      apply Finset.union_subset
      · apply Finset.union_subset Finset.subset_union_left
        refine Finset.Subset.trans (Finset.sdiff_subset) ?_
        refine Finset.Subset.trans (closureStep_subset_stopIdSet stops s) ?_
        exact Finset.subset_union_right
      · exact Finset.subset_union_right

theorem resolveClosure_subset_union (roots : Finset String) (stops : List Row) :
    resolveClosure roots stops ⊆ roots ∪ stopIdSet stops :=
  closureIter_subset_union stops (stops.length + 1) roots

theorem closureStep_insert (stops : List Row) (r : String) (s : Finset String)
    (hnp : ∀ row ∈ stops, parentStation row ≠ r) :
    closureStep stops (insert r s) = closureStep stops s := by
  unfold closureStep
  congr 1
  congr 1
  apply List.filter_congr
  intro row hrow
  have hne : parentStation row ≠ r := hnp row hrow
  simp [Finset.mem_insert, hne]

theorem closureIter_insert (stops : List Row) (r : String)
    (hr : r ∉ stopIdSet stops) (hnp : ∀ row ∈ stops, parentStation row ≠ r) :
    ∀ n s, closureIter stops n (insert r s) = insert r (closureIter stops n s) := by
  intro n
  induction n with
  | zero => intro s; rfl
  | succ n ih =>
    intro s
    have hstep : closureStep stops (insert r s) = closureStep stops s :=
      closureStep_insert stops r s hnp
    have hsd : closureStep stops s \ insert r s = closureStep stops s \ s := by
      ext x
      simp only [Finset.mem_sdiff, Finset.mem_insert, not_or]
      constructor
      · rintro ⟨hx, _, hxs⟩; exact ⟨hx, hxs⟩
      · rintro ⟨hx, hxs⟩
        refine ⟨hx, ?_, hxs⟩
        intro hxr
        subst hxr
        exact hr (closureStep_subset_stopIdSet stops s hx)
    simp only [closureIter, hstep, hsd]
    by_cases h : closureStep stops s \ s = ∅
    · simp [h]
    · simp only [h, ite_false]
      rw [Finset.insert_union]
      exact ih (s ∪ (closureStep stops s \ s))

-- ---------------------------------------------------------------------------
-- Claims C7, C9, C8 about the closure loop
-- ---------------------------------------------------------------------------

/-- Claim C7: the closure computation terminates for every finite stops table
and every root set, cyclic `parent_station` relations included.  Formally: the
fueled loop (whose fuel `stops.length + 1` bounds the number of scans, since a
productive scan adds at least one of the finitely many stop identifiers and an
identifier already in the set is never re-added) reaches the loop's exit
condition — its output is a fixed point of the scan step — and any further
iteration halts immediately, changing nothing. -/
theorem C7_closure_terminates (roots : Finset String) (stops : List Row) :
    closureStep stops (resolveClosure roots stops) ⊆ resolveClosure roots stops
    ∧ ∀ m, closureIter stops m (resolveClosure roots stops) = resolveClosure roots stops := by
  refine ⟨resolveClosure_fixed roots stops, ?_⟩
  intro m
  exact closureIter_of_fixed stops m _ (resolveClosure_fixed roots stops)

/-- Claim C9: the closure computation is idempotent — re-running it on its own
output changes nothing — and extensive — the roots are always contained in the
result. -/
theorem C9_closure_idempotent_extensive (roots : Finset String) (stops : List Row) :
    resolveClosure (resolveClosure roots stops) stops = resolveClosure roots stops
    ∧ roots ⊆ resolveClosure roots stops := by
  constructor
  · exact closureIter_of_fixed stops (stops.length + 1) _ (resolveClosure_fixed roots stops)
  · exact subset_resolveClosure roots stops

/-- Claim C8 as stated is false on the code: the loop adds every stop whose
`parent_station` is a member of the accumulating set, whether or not that
member has a record of its own.  Here the root `"R"` has no record in the
stops table, yet stop `"A"` enters the closure solely because its
`parent_station` equals `"R"`: the result is not the closure of the remaining
(empty) root set together with `"R"` itself. -/
theorem C8_counterexample :
    "R" ∉ stopIdSet exStopsC8
    ∧ resolveClosure {"R"} exStopsC8 ≠ resolveClosure (∅ : Finset String) exStopsC8 ∪ {"R"}
    ∧ "A" ∈ resolveClosure {"R"} exStopsC8 := by decide

/-- Claim C8 amended: the closure computation tolerates a root `r` with no
record in the stops table (no crash, no lookup), and provided additionally
that no stop names `r` as its `parent_station`, the resulting closure equals
the closure of the remaining roots together with `r` itself.  Without that
proviso `r` is expanded like any present root, through the `parent_station`
relation. -/
theorem C8_absent_root_inert (r : String) (roots : Finset String) (stops : List Row)
    (hr : r ∉ stopIdSet stops) (hnp : ∀ row ∈ stops, parentStation row ≠ r) :
    resolveClosure (insert r roots) stops = insert r (resolveClosure roots stops) := by
  unfold resolveClosure
  exact closureIter_insert stops r hr hnp (stops.length + 1) roots

/-- Witness for the amended claim C8 at a concrete input: the absent,
unreferenced root `"Z"` contributes exactly itself to the closure. -/
theorem C8_absent_root_inert_witness :
    resolveClosure (insert "Z" {"R"}) exStopsC8 = insert "Z" (resolveClosure {"R"} exStopsC8) :=
  C8_absent_root_inert "Z" {"R"} exStopsC8 (by decide) (by decide)
-- ---------------------------------------------------------------------------
-- Claims C5, C4, C3 about scope extraction and the write-or-skip step
-- ---------------------------------------------------------------------------

theorem mem_filterPathways (t : Table) (scope : Finset String) (r : Row) :
    r ∈ (filterPathways t scope).rows ↔
      r ∈ t.rows ∧ rowGet r "from_stop_id" ∈ scope ∧ rowGet r "to_stop_id" ∈ scope := by
  simp [filterPathways, List.mem_filter, and_assoc]

/-- Claim C5: pathway scoping is conjunctive — a pathway record appears in the
scoped pathways result if and only if both its `from_stop_id` and its
`to_stop_id` are members of the closure set, so a pathway with exactly one
in-scope endpoint is excluded entirely. -/
theorem C5_pathway_scoping_conjunctive (t : Table) (scope : Finset String) (r : Row) :
    r ∈ (filterPathways t scope).rows ↔
      r ∈ t.rows ∧ rowGet r "from_stop_id" ∈ scope ∧ rowGet r "to_stop_id" ∈ scope :=
  mem_filterPathways t scope r

/-- Claim C4: when the source pathways (resp. levels) file is absent the
corresponding target table passes through untouched and the skip is surfaced
(`pathwaysSkipped` / `levelsSkipped`); when the source file is present the
target table is fully replaced by the scoped content — the right-hand sides
for the present case mention only the source and the scope, never the prior
target pathway or level rows, so no upsert against them occurs, and an empty
scoped result replaces the target with the empty table. -/
theorem C4_secondary_skip_or_replace (roots : List String) (srcStops : Table)
    (srcPathways srcLevels : Option Table) (tgtStops tgtPathways tgtLevels : Table) :
    (runMerge roots srcStops srcPathways srcLevels tgtStops tgtPathways tgtLevels).pathways
        = (match srcPathways with
           | none => tgtPathways
           | some pw => filterPathways pw (resolveClosure roots.toFinset srcStops.rows))
    ∧ (runMerge roots srcStops srcPathways srcLevels tgtStops tgtPathways tgtLevels).pathwaysSkipped
        = srcPathways.isNone
    ∧ (runMerge roots srcStops srcPathways srcLevels tgtStops tgtPathways tgtLevels).levels
        = (match srcLevels with
           | none => tgtLevels
           | some lv => filterLevels lv
               (scopedStopsOf srcStops (resolveClosure roots.toFinset srcStops.rows)))
    ∧ (runMerge roots srcStops srcPathways srcLevels tgtStops tgtPathways tgtLevels).levelsSkipped
        = srcLevels.isNone := by
  cases srcPathways <;> cases srcLevels <;> simp [runMerge, writeSecondary]

/-- Claim C3 as stated is false on the code: no dangling-reference check
exists.  In this run the scoped pathway `P1` references the absent root `"R"`
at both endpoints; `"R"` is absent from the merged stops table, yet the
pathway set is emitted (not skipped, one row written) instead of the run
aborting. -/
theorem C3_counterexample :
    exRunC3.pathwaysSkipped = false
    ∧ exRunC3.pathways.rows.length = 1
    ∧ rowGet (exRunC3.pathways.rows.getD 0 []) "from_stop_id" = "R"
    ∧ "R" ∉ tableKeys exRunC3.stops := by decide

/-- Claim C3 amended: the code performs no dangling-reference check — whenever
the source pathways table is present, the scoped pathways are emitted
unconditionally, even if an endpoint is absent from the merged stops table.
Every emitted endpoint does lie in the closure set, hence is either a root
identifier or a `stop_id` occurring in the source stops table; an endpoint can
therefore dangle only when it is a root with no stop record. -/
theorem C3_no_dangling_check (roots : List String) (srcStops pw : Table)
    (srcLevels : Option Table) (tgtStops tgtPathways tgtLevels : Table) :
    (runMerge roots srcStops (some pw) srcLevels tgtStops tgtPathways tgtLevels).pathwaysSkipped
        = false
    ∧ (runMerge roots srcStops (some pw) srcLevels tgtStops tgtPathways tgtLevels).pathways
        = filterPathways pw (resolveClosure roots.toFinset srcStops.rows)
    ∧ ∀ r ∈ (runMerge roots srcStops (some pw) srcLevels tgtStops tgtPathways tgtLevels).pathways.rows,
        rowGet r "from_stop_id" ∈ roots.toFinset ∪ stopIdSet srcStops.rows
        ∧ rowGet r "to_stop_id" ∈ roots.toFinset ∪ stopIdSet srcStops.rows := by
  refine ⟨by cases srcLevels <;> simp [runMerge, writeSecondary],
          by cases srcLevels <;> simp [runMerge, writeSecondary], ?_⟩
  intro r hr
  have hmem : r ∈ (filterPathways pw (resolveClosure roots.toFinset srcStops.rows)).rows := by
    cases srcLevels <;> simpa [runMerge, writeSecondary] using hr
  rw [mem_filterPathways] at hmem
  have hsub := resolveClosure_subset_union roots.toFinset srcStops.rows
  exact ⟨hsub hmem.2.1, hsub hmem.2.2⟩
-- ---------------------------------------------------------------------------
-- Row and schema lemmas for the stops merge
-- ---------------------------------------------------------------------------

theorem rowGet_mkRow (cols : List String) (f : String → String) (c : String) :
    rowGet (mkRow cols f) c = if c ∈ cols then f c else "" := by
  induction cols with
  | nil => rfl
  | cons d cs ih =>
    simp only [mkRow, List.map_cons, rowGet, List.lookup] at *
    by_cases h : c = d
    · subst h
      simp
    · have hbeq : (c == d) = false := by simp [h]
      simp only [hbeq, ite_false, List.mem_cons, h, false_or]
      exact ih

theorem rowGet_of_keys_subset (r : Row) (cols : List String)
    (hwf : ∀ p ∈ r, p.1 ∈ cols) (c : String) (hc : c ∉ cols) :
    rowGet r c = "" := by
  induction r with
  | nil => rfl
  | cons p t ih =>
    simp only [rowGet, List.lookup]
    by_cases h : c = p.1
    · exact absurd (h ▸ hwf p (List.mem_cons_self p t)) hc
    · have hbeq : (c == p.1) = false := by simp [h]
      simp only [hbeq, ite_false]
      exact ih (fun q hq => hwf q (List.mem_cons_of_mem p hq))

theorem mem_colsTpisLast (cs : List String) (c : String) :
    c ∈ colsTpisLast cs ↔ c ∈ cs := by
  unfold colsTpisLast
  by_cases h : cs.contains "tpis_name"
  · simp only [h, ite_true, List.mem_append, List.mem_filter, List.mem_singleton]
    constructor
    · rintro (⟨hc, _⟩ | rfl)
      · exact hc
      · exact List.elem_iff.mp h
    · intro hc
      by_cases he : c = "tpis_name"
      · exact Or.inr he
      · exact Or.inl ⟨hc, by simp [he]⟩
  · have hn : "tpis_name" ∉ cs := fun hmem => h (List.elem_iff.mpr hmem)
    simp [h, hn]

theorem mem_unionCols (target : Table) (c : String) :
    c ∈ unionCols target ↔ c ∈ target.cols ∨ c ∈ pathwayColumns := by
  unfold unionCols colsWithPathwayColumns
  rw [mem_colsTpisLast, List.mem_append, List.mem_filter]
  constructor
  · rintro (h | ⟨h, _⟩)
    · exact Or.inl h
    · exact Or.inr h
  · rintro (h | h)
    · exact Or.inl h
    · by_cases ht : c ∈ target.cols
      · exact Or.inl ht
      · exact Or.inr ⟨h, by simp [ht]⟩

theorem mem_finalCols (target : Table) (hkt : "stop_id" ∈ target.cols) (c : String) :
    c ∈ finalCols target ↔ c ∈ unionCols target := by
  unfold finalCols
  rw [List.mem_cons, List.mem_filter]
  constructor
  · rintro (rfl | ⟨h, _⟩)
    · exact (mem_unionCols target _).mpr (Or.inl hkt)
    · exact h
  · intro h
    by_cases he : c = "stop_id"
    · exact Or.inl he
    · exact Or.inr ⟨h, by simp [he]⟩

theorem stopId_alignRow (target sc : Table) (r : Row)
    (hkt : "stop_id" ∈ target.cols) (hks : "stop_id" ∈ sc.cols) :
    stopId (alignRow target sc r) = stopId r := by
  unfold stopId alignRow
  rw [rowGet_mkRow]
  have h1 : "stop_id" ∈ unionCols target := (mem_unionCols target _).mpr (Or.inl hkt)
  have h2 : sc.cols.contains "stop_id" = true := List.elem_iff.mpr hks
  simp [h1, h2, hks]
theorem alignedScoped_keys (target sc : Table)
    (hkt : "stop_id" ∈ target.cols) (hks : "stop_id" ∈ sc.cols) :
    (alignedScoped target sc).map stopId = tableKeys sc := by
  unfold alignedScoped tableKeys
  rw [List.map_map]
  exact List.map_congr_left (fun r _ => stopId_alignRow target sc r hkt hks)

theorem find?_eq_of_nodup_keys (l : List Row) (hnd : (l.map stopId).Nodup)
    (s : Row) (hs : s ∈ l) :
    l.find? (fun x => stopId x == stopId s) = some s := by
  induction l with
  | nil => cases hs
  | cons a t ih =>
    rw [List.map_cons, List.nodup_cons] at hnd
    by_cases h : stopId a = stopId s
    · have has : a = s := by
        rcases List.mem_cons.mp hs with rfl | hst
        · rfl
        · exact absurd (h ▸ List.mem_map_of_mem stopId hst) hnd.1
      rw [List.find?_cons_of_pos]
      · rw [has]
      · simp [h]
    · have hst : s ∈ t := by
        rcases List.mem_cons.mp hs with rfl | hst
        · exact absurd rfl h
        · exact hst
      rw [List.find?_cons_of_neg]
      · exact ih hnd.2 hst
      · simp [h]

theorem updatedRow_of_not_mem (target sc : Table) (r : Row)
    (hkt : "stop_id" ∈ target.cols) (hks : "stop_id" ∈ sc.cols)
    (h : stopId r ∉ tableKeys sc) :
    updatedRow target sc r = mkRow (unionCols target) (fun c => rowGet r c) := by
  unfold updatedRow
  have hnone : (alignedScoped target sc).find? (fun s => stopId s == stopId r) = none := by
    rw [List.find?_eq_none]
    intro s hsmem
    obtain ⟨s0, hs0, rfl⟩ := List.mem_map.mp hsmem
    have hkeq : stopId (alignRow target sc s0) = stopId s0 :=
      stopId_alignRow target sc s0 hkt hks
    intro hbeq
    apply h
    rw [← eq_of_beq hbeq, hkeq]
    exact List.mem_map_of_mem stopId hs0
  rw [hnone]

theorem updatedRow_of_mem (target sc : Table) (r s : Row)
    (hkt : "stop_id" ∈ target.cols) (hks : "stop_id" ∈ sc.cols)
    (hnd : (tableKeys sc).Nodup) (hs : s ∈ sc.rows) (hkey : stopId r = stopId s) :
    updatedRow target sc r = alignRow target sc s := by
  unfold updatedRow
  have hnd' : ((alignedScoped target sc).map stopId).Nodup := by
    rw [alignedScoped_keys target sc hkt hks]
    exact hnd
  have hmem : alignRow target sc s ∈ alignedScoped target sc :=
    List.mem_map_of_mem (alignRow target sc) hs
  have hkey' : stopId (alignRow target sc s) = stopId r := by
    rw [stopId_alignRow target sc s hkt hks, hkey]
  have hfind := find?_eq_of_nodup_keys (alignedScoped target sc) hnd'
    (alignRow target sc s) hmem
  rw [hkey'] at hfind
  rw [hfind]

theorem stopId_updatedRow (target sc : Table) (r : Row)
    (hkt : "stop_id" ∈ target.cols) (_hks : "stop_id" ∈ sc.cols) :
    stopId (updatedRow target sc r) = stopId r := by
  unfold updatedRow
  cases hfind : (alignedScoped target sc).find? (fun s => stopId s == stopId r) with
  | none =>
    have h1 : "stop_id" ∈ unionCols target := (mem_unionCols target _).mpr (Or.inl hkt)
    simp [stopId, rowGet_mkRow, h1]
  | some s =>
    have hbeq := List.find?_some hfind
    exact eq_of_beq hbeq
theorem getD_map_rows (l : List Row) (f : Row → Row) (i : Nat) (hi : i < l.length) :
    (l.map f).getD i [] = f (l.getD i []) := by
  induction l generalizing i with
  | nil => cases hi
  | cons a t ih =>
    cases i with
    | zero => rfl
    | succ n => exact ih n (Nat.lt_of_succ_lt_succ hi)

theorem getD_append_left_rows (l m : List Row) (i : Nat) (hi : i < l.length) :
    (l ++ m).getD i [] = l.getD i [] := by
  induction l generalizing i with
  | nil => cases hi
  | cons a t ih =>
    cases i with
    | zero => rfl
    | succ n => exact ih n (Nat.lt_of_succ_lt_succ hi)

theorem getD_mem_rows (l : List Row) (i : Nat) (hi : i < l.length) : l.getD i [] ∈ l := by
  induction l generalizing i with
  | nil => cases hi
  | cons a t ih =>
    cases i with
    | zero => exact List.mem_cons_self a t
    | succ n => exact List.mem_cons_of_mem a (ih n (Nat.lt_of_succ_lt_succ hi))

/-- Claim C6: the merge preserves untouched rows.  The merged row list is the
updated target rows followed by the appended scoped rows, so existing target
rows keep their positions (hence their relative order) and all appended rows
come after them; and a target row whose `stop_id` is not a key of the scoped
table keeps every one of its cell values — identity of a row is taken
cell-wise over all column names, since the schema-union step uniformly pads
every pre-existing row with empty cells for the added pathway columns. -/
theorem C6_untouched_rows_preserved (target sc : Table)
    (hkt : "stop_id" ∈ target.cols) (hks : "stop_id" ∈ sc.cols)
    (hwf : ∀ r ∈ target.rows, ∀ p ∈ r, p.1 ∈ target.cols) :
    (mergeStops target sc).rows.length
        = target.rows.length + (appendedRows target sc).length
    ∧ (mergeStops target sc).rows.drop target.rows.length = appendedRows target sc
    ∧ ∀ i, i < target.rows.length →
        stopId (target.rows.getD i []) ∉ tableKeys sc →
        ∀ c, rowGet ((mergeStops target sc).rows.getD i []) c
            = rowGet (target.rows.getD i []) c := by
  refine ⟨by simp [mergeStops], ?_, ?_⟩
  · have h := List.drop_left (target.rows.map (updatedRow target sc)) (appendedRows target sc)
    rw [List.length_map] at h
    exact h
  · intro i hi hkeys c
    have hrow : (mergeStops target sc).rows.getD i []
        = updatedRow target sc (target.rows.getD i []) := by
      unfold mergeStops
      rw [getD_append_left_rows _ _ i (by rw [List.length_map]; exact hi)]
      exact getD_map_rows target.rows (updatedRow target sc) i hi
    rw [hrow, updatedRow_of_not_mem target sc _ hkt hks hkeys, rowGet_mkRow]
    by_cases hc : c ∈ unionCols target
    · simp [hc]
    · have hct : c ∉ target.cols := fun h => hc ((mem_unionCols target c).mpr (Or.inl h))
      rw [if_neg hc]
      exact (rowGet_of_keys_subset _ _ (hwf _ (getD_mem_rows target.rows i hi)) c hct).symm

/-- Witness for claim C6 at concrete tables: the scoped table updates `T2` and
appends `S1`, and the target row `T1` (whose key is outside the scoped key
set) is preserved cell-for-cell at its original position. -/
theorem C6_untouched_rows_preserved_witness :
    (mergeStops exTargetC6 exScopedC6).rows.length
        = exTargetC6.rows.length + (appendedRows exTargetC6 exScopedC6).length
    ∧ (mergeStops exTargetC6 exScopedC6).rows.drop exTargetC6.rows.length
        = appendedRows exTargetC6 exScopedC6
    ∧ ∀ i, i < exTargetC6.rows.length →
        stopId (exTargetC6.rows.getD i []) ∉ tableKeys exScopedC6 →
        ∀ c, rowGet ((mergeStops exTargetC6 exScopedC6).rows.getD i []) c
            = rowGet (exTargetC6.rows.getD i []) c :=
  C6_untouched_rows_preserved exTargetC6 exScopedC6 (by decide) (by decide) (by decide)
/-- Claim C1 as stated is false on the code.  The scoped table is reindexed to
the target schema with `fill_value=""` before `update`, and after `fillna` no
value is NA, so `update` overwrites EVERY column of a matched row — including
target-only columns, which the aligned scoped row carries as `""`.  Here key
`"A"` is in both tables, the target-only column `extra` held `"x"`, and the
merged row holds `""` instead of retaining it. -/
theorem C1_counterexample :
    stopId (exTargetC1.rows.getD 0 []) = stopId (exScopedC1.rows.getD 0 [])
    ∧ "extra" ∈ exTargetC1.cols
    ∧ "extra" ∉ exScopedC1.cols
    ∧ rowGet (exTargetC1.rows.getD 0 []) "extra" = "x"
    ∧ rowGet ((mergeStops exTargetC1 exScopedC1).rows.getD 0 []) "extra" = "" := by decide

/-- Claim C1 amended: for a key present in both tables, the merged row equals
the scoped record aligned to the merged schema — every merged-schema column
that the scoped schema also has holds the scoped record's value (an explicitly
empty value included), every merged-schema column absent from the scoped
schema is set to the empty string (the target's prior value is NOT retained),
and scoped-only columns outside the merged schema are dropped. -/
theorem C1_upsert_overwrites_aligned (target sc : Table)
    (hkt : "stop_id" ∈ target.cols) (hks : "stop_id" ∈ sc.cols)
    (hnd : (tableKeys sc).Nodup)
    (i : Nat) (hi : i < target.rows.length) (s : Row) (hs : s ∈ sc.rows)
    (hkey : stopId (target.rows.getD i []) = stopId s) :
    ∀ c, rowGet ((mergeStops target sc).rows.getD i []) c
        = if c ∈ unionCols target
          then (if c ∈ sc.cols then rowGet s c else "")
          else "" := by
  intro c
  have hrow : (mergeStops target sc).rows.getD i []
      = updatedRow target sc (target.rows.getD i []) := by
    unfold mergeStops
    rw [getD_append_left_rows _ _ i (by rw [List.length_map]; exact hi)]
    exact getD_map_rows target.rows (updatedRow target sc) i hi
  rw [hrow, updatedRow_of_mem target sc _ s hkt hks hnd hs hkey]
  unfold alignRow
  rw [rowGet_mkRow]
  by_cases hc : c ∈ unionCols target
  · by_cases hcs : c ∈ sc.cols
    · simp [hc, hcs, List.elem_iff.mpr hcs]
    · have hfalse : sc.cols.contains c ≠ true := fun h => hcs (List.elem_iff.mp h)
      simp [hc, hcs, hfalse]
  · simp [hc]

/-- Witness for the amended claim C1 at concrete tables: the target row `T2`
is matched by the scoped row `T2` and becomes that row aligned to the merged
schema. -/
theorem C1_upsert_overwrites_aligned_witness :
    rowGet ((mergeStops exTargetC6 exScopedC6).rows.getD 1 []) "stop_name"
        = if "stop_name" ∈ unionCols exTargetC6
          then (if "stop_name" ∈ exScopedC6.cols
                then rowGet (exScopedC6.rows.getD 0 []) "stop_name" else "")
          else "" :=
  C1_upsert_overwrites_aligned exTargetC6 exScopedC6 (by decide) (by decide) (by decide)
    1 (by decide) (exScopedC6.rows.getD 0 []) (by decide) (by decide) "stop_name"
/-- Claim C2 as stated is false on the code.  Only the three fixed
pathway-related columns are ever added to the target schema; the scoped-only
column `platform_code` is silently dropped by the `reindex` to the target
column set — and with it its value for the appended row. -/
theorem C2_counterexample :
    "platform_code" ∈ exScopedC2.cols
    ∧ rowGet (exScopedC2.rows.getD 0 []) "platform_code" = "7"
    ∧ "platform_code" ∉ (mergeStops exTargetC2 exScopedC2).cols
    ∧ rowGet ((mergeStops exTargetC2 exScopedC2).rows.getD 1 []) "platform_code" = "" := by
  decide

/-- Claim C2 amended: the merged schema is the target schema plus whichever of
the three fixed columns `stop_timezone`, `wheelchair_boarding`, `level_id`
were missing — any other column present only in the scoped data is dropped,
not added.  Every column of the target survives the merge, and target-only
columns are filled with the empty string in appended rows. -/
theorem C2_schema_union (target sc : Table) (hkt : "stop_id" ∈ target.cols) :
    (∀ c ∈ target.cols, c ∈ (mergeStops target sc).cols)
    ∧ (∀ c, c ∈ (mergeStops target sc).cols ↔ c ∈ target.cols ∨ c ∈ pathwayColumns)
    ∧ (∀ r ∈ appendedRows target sc, ∀ c ∈ target.cols, c ∉ sc.cols → rowGet r c = "") := by
  have hmem : ∀ c, c ∈ (mergeStops target sc).cols ↔ c ∈ target.cols ∨ c ∈ pathwayColumns := by
    intro c
    show c ∈ finalCols target ↔ _
    rw [mem_finalCols target hkt, mem_unionCols]
  refine ⟨fun c hc => (hmem c).mpr (Or.inl hc), hmem, ?_⟩
  intro r hr c hct hcs
  obtain ⟨s0, hs0, rfl⟩ : ∃ s0, s0 ∈ sc.rows ∧ alignRow target sc s0 = r := by
    have hfil := List.mem_filter.mp hr
    obtain ⟨s0, h1, h2⟩ := List.mem_map.mp hfil.1
    exact ⟨s0, h1, h2⟩
  unfold alignRow
  rw [rowGet_mkRow]
  have hcu : c ∈ unionCols target := (mem_unionCols target c).mpr (Or.inl hct)
  have hfalse : sc.cols.contains c ≠ true := fun h => hcs (List.elem_iff.mp h)
  rw [if_pos hcu, if_neg hfalse]

/-- Witness for the amended claim C2 at concrete tables: the target keeps its
key column, the merged schema is exactly the target schema plus the three
pathway columns, and appended rows carry `""` in target-only columns. -/
theorem C2_schema_union_witness :
    (∀ c ∈ exTargetC2.cols, c ∈ (mergeStops exTargetC2 exScopedC2).cols)
    ∧ (∀ c, c ∈ (mergeStops exTargetC2 exScopedC2).cols
        ↔ c ∈ exTargetC2.cols ∨ c ∈ pathwayColumns)
    ∧ (∀ r ∈ appendedRows exTargetC2 exScopedC2, ∀ c ∈ exTargetC2.cols,
        c ∉ exScopedC2.cols → rowGet r c = "") :=
  C2_schema_union exTargetC2 exScopedC2 (by decide)

theorem map_filter_key (l : List Row) (q : String → Bool) :
    (l.filter (fun s => q (stopId s))).map stopId = (l.map stopId).filter q := by
  induction l with
  | nil => rfl
  | cons a t ih =>
    cases hq : q (stopId a) <;> simp [List.filter_cons, hq, ih]

theorem appendedRows_keys (target sc : Table)
    (hkt : "stop_id" ∈ target.cols) (hks : "stop_id" ∈ sc.cols) :
    (appendedRows target sc).map stopId
      = (tableKeys sc).filter (fun k => !(tableKeys target).contains k) := by
  unfold appendedRows
  rw [map_filter_key (alignedScoped target sc) (fun k => !(tableKeys target).contains k)]
  rw [alignedScoped_keys target sc hkt hks]
/-- Claim C10: when both inputs have pairwise-distinct `stop_id` values, so
does the merged table; its key set is the union of the two key sets, and its
row count is the target's plus the number of scoped keys new to the target. -/
theorem C10_merged_keys (target sc : Table)
    (hkt : "stop_id" ∈ target.cols) (hks : "stop_id" ∈ sc.cols)
    (hndt : (tableKeys target).Nodup) (hnds : (tableKeys sc).Nodup) :
    (tableKeys (mergeStops target sc)).Nodup
    ∧ (tableKeys (mergeStops target sc)).toFinset
        = (tableKeys target).toFinset ∪ (tableKeys sc).toFinset
    ∧ (mergeStops target sc).rows.length
        = target.rows.length + ((tableKeys sc).toFinset \ (tableKeys target).toFinset).card := by
  have hupd : (target.rows.map (updatedRow target sc)).map stopId = tableKeys target := by
    rw [List.map_map]
    exact List.map_congr_left (fun r _ => stopId_updatedRow target sc r hkt hks)
  have happ := appendedRows_keys target sc hkt hks
  have hkeys : tableKeys (mergeStops target sc)
      = tableKeys target ++ (tableKeys sc).filter (fun k => !(tableKeys target).contains k) := by
    show ((target.rows.map (updatedRow target sc) ++ appendedRows target sc).map stopId) = _
    rw [List.map_append, hupd, happ]
  have hfilnd : ((tableKeys sc).filter (fun k => !(tableKeys target).contains k)).Nodup :=
    hnds.filter _
  have hdisj : ∀ a ∈ tableKeys target,
      a ∉ (tableKeys sc).filter (fun k => !(tableKeys target).contains k) := by
    intro a ha hmem
    have h2 := (List.mem_filter.mp hmem).2
    rw [Bool.not_eq_true'] at h2
    have h3 : (tableKeys target).contains a = true := List.elem_iff.mpr ha
    rw [h3] at h2
    exact Bool.noConfusion h2
  have hfin : ((tableKeys sc).filter (fun k => !(tableKeys target).contains k)).toFinset
      = (tableKeys sc).toFinset \ (tableKeys target).toFinset := by
    ext x
    simp only [List.mem_toFinset, List.mem_filter, Finset.mem_sdiff, Bool.not_eq_true']
    constructor
    · rintro ⟨h1, h2⟩
      refine ⟨h1, fun hx => ?_⟩
      have h3 : (tableKeys target).contains x = true := List.elem_iff.mpr hx
      rw [h3] at h2
      exact Bool.noConfusion h2
    · rintro ⟨h1, h2⟩
      refine ⟨h1, ?_⟩
      cases hcx : (tableKeys target).contains x
      · rfl
      · exact absurd (List.elem_iff.mp hcx) h2
  refine ⟨?_, ?_, ?_⟩
  · rw [hkeys]
    exact List.Nodup.append hndt hfilnd hdisj
  · rw [hkeys, List.toFinset_append, hfin]
    ext x
    simp only [Finset.mem_union, Finset.mem_sdiff, List.mem_toFinset]
    constructor
    · rintro (h | ⟨h, _⟩)
      · exact Or.inl h
      · exact Or.inr h
    · rintro (h | h)
      · exact Or.inl h
      · by_cases ht : x ∈ tableKeys target
        · exact Or.inl ht
        · exact Or.inr ⟨h, ht⟩
  · have hlen1 : (mergeStops target sc).rows.length
        = target.rows.length + (appendedRows target sc).length := by
      simp [mergeStops]
    have hlen2 : (appendedRows target sc).length
        = ((tableKeys sc).filter (fun k => !(tableKeys target).contains k)).length := by
      calc (appendedRows target sc).length
          = ((appendedRows target sc).map stopId).length := (List.length_map _ _).symm
        _ = _ := by rw [happ]
    rw [hlen1, hlen2, ← List.toFinset_card_of_nodup hfilnd, hfin]

/-- Witness for claim C10 at concrete tables: both inputs have distinct keys;
the merged table has distinct keys `T1, T2, S1`, the union key set, and row
count `2 + 1`. -/
theorem C10_merged_keys_witness :
    (tableKeys (mergeStops exTargetC6 exScopedC6)).Nodup
    ∧ (tableKeys (mergeStops exTargetC6 exScopedC6)).toFinset
        = (tableKeys exTargetC6).toFinset ∪ (tableKeys exScopedC6).toFinset
    ∧ (mergeStops exTargetC6 exScopedC6).rows.length
        = exTargetC6.rows.length
          + ((tableKeys exScopedC6).toFinset \ (tableKeys exTargetC6).toFinset).card :=
  C10_merged_keys exTargetC6 exScopedC6 (by decide) (by decide) (by decide) (by decide)
/-- Witness for claim C7 at a concrete input: the closure loop over the
one-row stop table halts. -/
theorem C7_closure_terminates_witness :
    closureStep exStopsC8 (resolveClosure {"R"} exStopsC8) ⊆ resolveClosure {"R"} exStopsC8
    ∧ ∀ m, closureIter exStopsC8 m (resolveClosure {"R"} exStopsC8)
        = resolveClosure {"R"} exStopsC8 :=
  C7_closure_terminates {"R"} exStopsC8

/-- Witness for claim C9 at a concrete input. -/
theorem C9_closure_idempotent_extensive_witness :
    resolveClosure (resolveClosure {"R"} exStopsC8) exStopsC8 = resolveClosure {"R"} exStopsC8
    ∧ {"R"} ⊆ resolveClosure {"R"} exStopsC8 :=
  C9_closure_idempotent_extensive {"R"} exStopsC8

/-- Witness for claim C5 at a concrete input: the pathway from `"R"` to `"R"`
is in scope exactly because both endpoints are. -/
theorem C5_pathway_scoping_conjunctive_witness :
    exSrcPathwaysC3.rows.getD 0 [] ∈ (filterPathways exSrcPathwaysC3 {"R"}).rows ↔
      exSrcPathwaysC3.rows.getD 0 [] ∈ exSrcPathwaysC3.rows
      ∧ rowGet (exSrcPathwaysC3.rows.getD 0 []) "from_stop_id" ∈ ({"R"} : Finset String)
      ∧ rowGet (exSrcPathwaysC3.rows.getD 0 []) "to_stop_id" ∈ ({"R"} : Finset String) :=
  C5_pathway_scoping_conjunctive exSrcPathwaysC3 {"R"} (exSrcPathwaysC3.rows.getD 0 [])

/-- Witness for claim C4 at a concrete input: pathways source present (full
replace, no skip), levels source absent (pass-through, skip surfaced). -/
theorem C4_secondary_skip_or_replace_witness :
    (runMerge ["R"] exSrcStopsC3 (some exSrcPathwaysC3) none
        exTgtStopsC3 exTgtPathwaysC3 exTgtLevelsC3).pathways
        = (match (some exSrcPathwaysC3 : Option Table) with
           | none => exTgtPathwaysC3
           | some pw => filterPathways pw
               (resolveClosure (["R"] : List String).toFinset exSrcStopsC3.rows))
    ∧ (runMerge ["R"] exSrcStopsC3 (some exSrcPathwaysC3) none
        exTgtStopsC3 exTgtPathwaysC3 exTgtLevelsC3).pathwaysSkipped
        = (some exSrcPathwaysC3 : Option Table).isNone
    ∧ (runMerge ["R"] exSrcStopsC3 (some exSrcPathwaysC3) none
        exTgtStopsC3 exTgtPathwaysC3 exTgtLevelsC3).levels
        = (match (none : Option Table) with
           | none => exTgtLevelsC3
           | some lv => filterLevels lv
               (scopedStopsOf exSrcStopsC3
                 (resolveClosure (["R"] : List String).toFinset exSrcStopsC3.rows)))
    ∧ (runMerge ["R"] exSrcStopsC3 (some exSrcPathwaysC3) none
        exTgtStopsC3 exTgtPathwaysC3 exTgtLevelsC3).levelsSkipped
        = (none : Option Table).isNone :=
  C4_secondary_skip_or_replace ["R"] exSrcStopsC3 (some exSrcPathwaysC3) none
    exTgtStopsC3 exTgtPathwaysC3 exTgtLevelsC3

/-- Witness for the amended claim C3 at a concrete input. -/
theorem C3_no_dangling_check_witness :
    (runMerge ["R"] exSrcStopsC3 (some exSrcPathwaysC3) none
        exTgtStopsC3 exTgtPathwaysC3 exTgtLevelsC3).pathwaysSkipped = false
    ∧ (runMerge ["R"] exSrcStopsC3 (some exSrcPathwaysC3) none
        exTgtStopsC3 exTgtPathwaysC3 exTgtLevelsC3).pathways
        = filterPathways exSrcPathwaysC3
            (resolveClosure (["R"] : List String).toFinset exSrcStopsC3.rows)
    ∧ ∀ r ∈ (runMerge ["R"] exSrcStopsC3 (some exSrcPathwaysC3) none
        exTgtStopsC3 exTgtPathwaysC3 exTgtLevelsC3).pathways.rows,
        rowGet r "from_stop_id" ∈ (["R"] : List String).toFinset ∪ stopIdSet exSrcStopsC3.rows
        ∧ rowGet r "to_stop_id" ∈ (["R"] : List String).toFinset ∪ stopIdSet exSrcStopsC3.rows :=
  C3_no_dangling_check ["R"] exSrcStopsC3 exSrcPathwaysC3 none
    exTgtStopsC3 exTgtPathwaysC3 exTgtLevelsC3
end GtfsMerge
